import Mathlib

/-!
Shallow embedding of the `oxeye-db` crate: the hybrid persistent/ephemeral
data store of the oxeye repository.

Persistent SQLite tables (`pending_links`, `servers`, `status_images`) are
modelled as lists of rows; the concurrent in-memory presence cache
(`scc::HashMap<String, ServerState>`) is modelled as an association list.
Timestamps are `Int` (unix seconds), guild ids are `Nat`, player names and
api-key hashes are `String`.  Fallible operations return
`Except DbError α × Db`: the result together with the post-state (errors
that roll back return the unchanged state, mirroring the transactional
Rust code).
-/

deriving instance DecidableEq for Except

namespace Oxeye

/-- Insert an element into a sorted list, before the first element it
compares `le` to (an insertion step of a stable sort). -/
def insertLe {α : Type} (le : α → α → Bool) (a : α) : List α → List α
  | [] => [a]
  | b :: rest => if le a b then a :: b :: rest else b :: insertLe le a rest

/-- Insertion sort with a boolean comparator; models `Vec::sort` /
`sort_by`, whose exact algorithm is irrelevant here (only the resulting
multiset matters to the claims). -/
def sortByLe {α : Type} (le : α → α → Bool) : List α → List α
  | [] => []
  | a :: rest => insertLe le a (sortByLe le rest)

/-- Lexicographic strict order on character lists (by scalar value). -/
def lexLt : List Char → List Char → Bool
  | [], [] => false
  | [], _ :: _ => true
  | _ :: _, [] => false
  | a :: as, b :: bs =>
      if a.toNat < b.toNat then true
      else if b.toNat < a.toNat then false
      else lexLt as bs

/-- The ascending string comparator used for player and server names. -/
def strLe (a b : String) : Bool :=
  !(lexLt b.data a.data)

/-- Error taxonomy of `oxeye-db/src/error.rs` (`DbError`).  `Sqlite` stands
for an opaque storage-engine error such as a primary-key violation. -/
inductive DbError where
  | Sqlite
  | Connection
  | PendingLinkNotFound
  | PendingLinkAlreadyUsed
  | ServerNotFound
  | ServerNameConflict
  | InvalidApiKey
deriving DecidableEq

/-- Models `PendingLink` of `models.rs`: a pending connection code. -/
structure PendingLink where
  code : String
  guild_id : Nat
  server_name : String
  created_at : Int
deriving DecidableEq

/-- Models `PendingLink::is_expired`: 10 minute TTL, strict inequality. -/
def PendingLink.is_expired (l : PendingLink) (now : Int) : Bool :=
  now - l.created_at > 600

/-- Models `PendingLink::expires_in`: seconds remaining until expiry. -/
def PendingLink.expires_in (l : PendingLink) (now : Int) : Int :=
  max (l.created_at + 600 - now) 0

/-- Models `Server` of `models.rs`: a linked Minecraft server row. -/
structure Server where
  api_key_hash : String
  name : String
  guild_id : Nat
deriving DecidableEq

/-- A row of the `status_images` table (`api_key_hash PK`,
`FOREIGN KEY ... REFERENCES servers ON DELETE CASCADE`). -/
structure StatusImage where
  api_key_hash : String
  image_data : List Nat
  updated_at : Int
deriving DecidableEq

/-- Models `PlayerInfo` of `models.rs`. -/
structure PlayerInfo where
  player_name : String
  joined_at : Int
deriving DecidableEq

/-- Models `ServerWithPlayers` of `models.rs`. -/
structure ServerWithPlayers where
  name : String
  players : List PlayerInfo
deriving DecidableEq

/-- Models `ServerState` of `cache.rs`: roster of one server plus the
`synced_since_boot` flag. -/
structure ServerState where
  players : List (String × Int)
  synced_since_boot : Bool
deriving DecidableEq

/-- Models `ServerState::new`. -/
def ServerState.new : ServerState :=
  { players := [], synced_since_boot := false }

/-- The roster mutation inside `ServerState::add_player`: if the name is
already present, update the first occurrence's join time in place,
otherwise push the pair at the end (Rust `iter().position` + index
assignment / `Vec::push`). -/
def addPlayerList : List (String × Int) → String → Int → List (String × Int)
  | [], n, t => [(n, t)]
  | (m, u) :: rest, n, t =>
      if m == n then (m, t) :: rest else (m, u) :: addPlayerList rest n t

/-- Models `ServerState::add_player`. -/
def ServerState.add_player (s : ServerState) (name : String) (joined_at : Int) :
    ServerState :=
  { players := addPlayerList s.players name joined_at, synced_since_boot := true }

/-- Models `Iterator::position(|(n, _)| n == name)`: index of the first pair with
the given name. -/
def findPlayerIdx : List (String × Int) → String → Option Nat
  | [], _ => none
  | q :: rest, n =>
      if q.1 == n then some 0 else (findPlayerIdx rest n).map (· + 1)

/-- Models `Vec::swap_remove(i)`: replace the element at index `i` with the last
element and pop the last element. -/
def swapRemove {α : Type} (ps : List α) (i : Nat) : List α :=
  match ps.getLast? with
  | none => ps
  | some last => (ps.set i last).dropLast

/-- The roster mutation inside `ServerState::remove_player`. -/
def removePlayerList (ps : List (String × Int)) (n : String) :
    List (String × Int) :=
  match findPlayerIdx ps n with
  | some i => swapRemove ps i
  | none => ps

/-- Models `ServerState::remove_player`. -/
def ServerState.remove_player (s : ServerState) (name : String) : ServerState :=
  { players := removePlayerList s.players name, synced_since_boot := true }

/-- Models `ServerState::sync_players`: wholesale roster replacement. -/
def ServerState.sync_players (_s : ServerState) (players : List (String × Int)) :
    ServerState :=
  { players := players, synced_since_boot := true }

/-- Models `ServerState::player_count`. -/
def ServerState.player_count (s : ServerState) : Nat :=
  s.players.length

/-- The presence cache: association list keyed by `api_key_hash`. -/
abbrev Cache : Type := List (String × ServerState)

/-- Models `scc::HashMap::get`: value stored at a key. -/
def cacheGet (c : Cache) (h : String) : Option ServerState :=
  (List.find? (fun p => p.1 == h) c).map (·.2)

/-- Update the value stored at a key in place (no-op when absent):
`if let Some(entry) = cache.get(..) { entry.get_mut() ... }`. -/
def cacheUpdate : Cache → String → (ServerState → ServerState) → Cache
  | [], _, _ => []
  | (k, s) :: rest, h, f =>
      if k == h then (k, f s) :: rest else (k, s) :: cacheUpdate rest h f

/-- Models `cache.entry(h).or_insert_with(ServerState::new).get_mut()` followed by
the mutation `f`: create the entry on first touch, then mutate it. -/
def cacheEntryOrInsert (c : Cache) (h : String) (f : ServerState → ServerState) :
    Cache :=
  match cacheGet c h with
  | some _ => cacheUpdate c h f
  | none => c ++ [(h, f ServerState.new)]

/-- Models `scc::HashMap::remove`. -/
def cacheRemove (c : Cache) (h : String) : Cache :=
  List.filter (fun p => !(p.1 == h)) c

/-- The whole `Database` state: three SQLite tables plus the in-memory
presence cache (the skin/head blob tables play no role in the claims). -/
structure Db where
  pending_links : List PendingLink
  servers : List Server
  status_images : List StatusImage
  cache : Cache
deriving DecidableEq

/-- Models `Database::server_exists`: `SELECT EXISTS(... WHERE api_key_hash = ?)`. -/
def Db.server_exists (db : Db) (h : String) : Bool :=
  db.servers.any (fun s => s.api_key_hash == h)

/-- Models `Database::server_name_exists`:
`SELECT EXISTS(... WHERE guild_id = ? AND name = ?)`. -/
def Db.server_name_exists (db : Db) (gid : Nat) (name : String) : Bool :=
  db.servers.any (fun s => s.guild_id == gid && s.name == name)

/-- Models `Database::create_pending_link`: inside one transaction, check the
`(guild_id, name)` uniqueness against `servers`, then INSERT.  A duplicate
`code` violates the `pending_links` primary key, aborting the transaction
with a storage error. -/
def Db.create_pending_link (db : Db) (code : String) (guild_id : Nat)
    (server_name : String) (now : Int) : Except DbError PendingLink × Db :=
  if db.server_name_exists guild_id server_name then
    (.error .ServerNameConflict, db)
  else if db.pending_links.any (fun l => l.code == code) then
    (.error .Sqlite, db)
  else
    let link : PendingLink :=
      { code := code, guild_id := guild_id, server_name := server_name,
        created_at := now }
    (.ok link, { db with pending_links := db.pending_links ++ [link] })

/-- Models `Database::get_pending_link`: lookup by code. -/
def Db.get_pending_link (db : Db) (code : String) : Option PendingLink :=
  db.pending_links.find? (fun l => l.code == code)

/-- Models `Database::consume_pending_link`: look up by code (NotFound when
absent); delete the row; report NotFound when expired, else return it. -/
def Db.consume_pending_link (db : Db) (code : String) (now : Int) :
    Except DbError PendingLink × Db :=
  match db.pending_links.find? (fun l => l.code == code) with
  | none => (.error .PendingLinkNotFound, db)
  | some l =>
      let db' : Db :=
        { db with pending_links :=
            db.pending_links.filter (fun p => !(p.code == code)) }
      if l.is_expired now then (.error .PendingLinkNotFound, db')
      else (.ok l, db')

/-- Models `Database::cleanup_expired_links`:
`DELETE FROM pending_links WHERE created_at < now - 600`, returning the
number of deleted rows. -/
def Db.cleanup_expired_links (db : Db) (now : Int) : Nat × Db :=
  let cutoff := now - 600
  let removed := db.pending_links.filter (fun l => decide (l.created_at < cutoff))
  (removed.length,
   { db with pending_links :=
       db.pending_links.filter (fun l => !decide (l.created_at < cutoff)) })

/-- Models `Database::create_server`: plain INSERT into `servers`; violating the
primary key or the `UNIQUE(guild_id, name)` constraint is a storage error.
It does not touch the presence cache. -/
def Db.create_server (db : Db) (api_key_hash : String) (name : String)
    (guild_id : Nat) : Except DbError Server × Db :=
  if db.server_exists api_key_hash then (.error .Sqlite, db)
  else if db.server_name_exists guild_id name then (.error .Sqlite, db)
  else
    let s : Server := { api_key_hash := api_key_hash, name := name,
                        guild_id := guild_id }
    (.ok s, { db with servers := db.servers ++ [s] })

/-- Models `Database::get_server_by_api_key`. -/
def Db.get_server_by_api_key (db : Db) (h : String) : Option Server :=
  db.servers.find? (fun s => s.api_key_hash == h)

/-- Models `Database::delete_server_by_api_key`: DELETE the `servers` row (the
`status_images` row for the same key goes with it via
`ON DELETE CASCADE`); `InvalidApiKey` when no row matched; on success also
remove the presence-cache entry. -/
def Db.delete_server_by_api_key (db : Db) (h : String) :
    Except DbError Unit × Db :=
  if db.server_exists h then
    (.ok (),
     { db with
        servers := db.servers.filter (fun s => !(s.api_key_hash == h)),
        status_images :=
          db.status_images.filter (fun i => !(i.api_key_hash == h)),
        cache := cacheRemove db.cache h })
  else (.error .InvalidApiKey, db)

/-- Models `Database::delete_server` (by guild and name): query the hash first,
DELETE the row(s) (cascading to `status_images`), `ServerNotFound` when
nothing matched, then drop the cache entry for the queried hash. -/
def Db.delete_server (db : Db) (guild_id : Nat) (name : String) :
    Except DbError Unit × Db :=
  match db.servers.find? (fun s => s.guild_id == guild_id && s.name == name) with
  | none => (.error .ServerNotFound, db)
  | some srv =>
      (.ok (),
       { db with
          servers := db.servers.filter
            (fun s => !(s.guild_id == guild_id && s.name == name)),
          status_images := db.status_images.filter
            (fun i => !(db.servers.any (fun s =>
              (s.guild_id == guild_id && s.name == name) &&
                s.api_key_hash == i.api_key_hash))),
          cache := cacheRemove db.cache srv.api_key_hash })

/-- Models `Database::player_join`: existence check against `servers`, then
create-or-mutate the cache entry with `add_player`. -/
def Db.player_join (db : Db) (api_key_hash : String) (player_name : String)
    (now : Int) : Except DbError Unit × Db :=
  if !db.server_exists api_key_hash then (.error .InvalidApiKey, db)
  else
    let c := cacheEntryOrInsert db.cache api_key_hash
      (fun s => s.add_player player_name now)
    (.ok (), { db with cache := c })

/-- Models `Database::player_leave`: existence check against `servers`, then
mutate the cache entry with `remove_player` only if it exists. -/
def Db.player_leave (db : Db) (api_key_hash : String) (player_name : String) :
    Except DbError Unit × Db :=
  if !db.server_exists api_key_hash then (.error .InvalidApiKey, db)
  else
    let c := cacheUpdate db.cache api_key_hash
      (fun s => s.remove_player player_name)
    (.ok (), { db with cache := c })

/-- Models `Database::sync_players`: existence check against `servers`, pair every
name with `now`, then create-or-mutate the cache entry with the wholesale
replacement. -/
def Db.sync_players (db : Db) (api_key_hash : String) (players : List String)
    (now : Int) : Except DbError Unit × Db :=
  if !db.server_exists api_key_hash then (.error .InvalidApiKey, db)
  else
    let players_with_time := players.map (fun p => (p, now))
    let c := cacheEntryOrInsert db.cache api_key_hash
      (fun s => s.sync_players players_with_time)
    (.ok (), { db with cache := c })

/-- Models `Database::is_server_synced`: `false` for a key absent from the cache. -/
def Db.is_server_synced (db : Db) (h : String) : Bool :=
  match cacheGet db.cache h with
  | some s => s.synced_since_boot
  | none => false

/-- Models `Database::get_online_players`: names in the cached roster, sorted;
empty for a key absent from the cache. -/
def Db.get_online_players (db : Db) (h : String) : List String :=
  let players : List String :=
    match cacheGet db.cache h with
    | some s => s.players.map (·.1)
    | none => []
  sortByLe strLe players

/-- The per-server half of `get_servers_with_players` /
`get_server_with_players`: the cached roster as sorted `PlayerInfo`s,
empty for a key absent from the cache. -/
def Db.playersFor (db : Db) (h : String) : List PlayerInfo :=
  let players : List PlayerInfo :=
    match cacheGet db.cache h with
    | some s => s.players.map (fun p => ⟨p.1, p.2⟩)
    | none => []
  sortByLe (fun a b => strLe a.player_name b.player_name) players

/-- Models `SELECT api_key_hash, name FROM servers WHERE guild_id = ? ORDER BY name`. -/
def Db.guild_servers (db : Db) (guild_id : Nat) : List Server :=
  sortByLe (fun a b => strLe a.name b.name)
    (db.servers.filter (fun s => s.guild_id == guild_id))

/-- Models `Database::get_servers_with_players`. -/
def Db.get_servers_with_players (db : Db) (guild_id : Nat) :
    List ServerWithPlayers :=
  (db.guild_servers guild_id).map
    (fun s => ⟨s.name, db.playersFor s.api_key_hash⟩)

/-- Models `Database::get_server_with_players`. -/
def Db.get_server_with_players (db : Db) (guild_id : Nat) (server_name : String) :
    Except DbError ServerWithPlayers :=
  match db.servers.find?
      (fun s => s.guild_id == guild_id && s.name == server_name) with
  | none => .error .ServerNotFound
  | some s => .ok ⟨server_name, db.playersFor s.api_key_hash⟩

/-- Models `Database::store_status_image`: `INSERT OR REPLACE`; the foreign key to
`servers` (with `foreign_keys = ON`) makes a dangling key a storage error. -/
def Db.store_status_image (db : Db) (h : String) (image_data : List Nat)
    (now : Int) : Except DbError Unit × Db :=
  if !db.server_exists h then (.error .Sqlite, db)
  else
    (.ok (),
     { db with status_images :=
         db.status_images.filter (fun i => !(i.api_key_hash == h)) ++
           [⟨h, image_data, now⟩] })

/-- Models `Database::get_status_image`. -/
def Db.get_status_image (db : Db) (h : String) : Option (List Nat) :=
  (db.status_images.find? (fun i => i.api_key_hash == h)).map (·.image_data)

/-- One pass of `Database::populate_cache`: insert an empty
`ServerState::new` for every listed hash, skipping keys already present
(`scc::HashMap::insert` fails on an existing key and the result is ignored). -/
def populateCacheFrom (c : Cache) : List String → Cache
  | [] => c
  | h :: rest =>
      populateCacheFrom
        (if (cacheGet c h).isSome then c else c ++ [(h, ServerState.new)]) rest

/-- Models `Database::populate_cache`: boot pre-population with one empty entry
per `servers` row. -/
def Db.populate_cache (db : Db) : Db :=
  { db with cache := populateCacheFrom db.cache (db.servers.map (·.api_key_hash)) }

/-- The roster currently cached for a key (empty when the entry is absent);
used to state roster properties. -/
def Db.roster (db : Db) (h : String) : List (String × Int) :=
  match cacheGet db.cache h with
  | some s => s.players
  | none => []

/-- The names of a roster. -/
def namesOf (ps : List (String × Int)) : List String :=
  ps.map (·.1)

/-- All mutating `Database` operations, for stating whole-store invariants. -/
inductive Op where
  | createPendingLink (code : String) (guild_id : Nat) (server_name : String)
      (now : Int)
  | consumePendingLink (code : String) (now : Int)
  | cleanupExpiredLinks (now : Int)
  | createServer (api_key_hash : String) (name : String) (guild_id : Nat)
  | deleteServer (guild_id : Nat) (name : String)
  | deleteServerByApiKey (api_key_hash : String)
  | playerJoin (api_key_hash : String) (player_name : String) (now : Int)
  | playerLeave (api_key_hash : String) (player_name : String)
  | syncPlayers (api_key_hash : String) (players : List String) (now : Int)
  | storeStatusImage (api_key_hash : String) (image_data : List Nat) (now : Int)
  | populateCache

/-- The state transition of each mutating operation (result discarded). -/
def Db.applyOp (db : Db) : Op → Db
  | .createPendingLink code gid name now =>
      (db.create_pending_link code gid name now).2
  | .consumePendingLink code now => (db.consume_pending_link code now).2
  | .cleanupExpiredLinks now => (db.cleanup_expired_links now).2
  | .createServer h name gid => (db.create_server h name gid).2
  | .deleteServer gid name => (db.delete_server gid name).2
  | .deleteServerByApiKey h => (db.delete_server_by_api_key h).2
  | .playerJoin h p now => (db.player_join h p now).2
  | .playerLeave h p => (db.player_leave h p).2
  | .syncPlayers h ps now => (db.sync_players h ps now).2
  | .storeStatusImage h d now => (db.store_status_image h d now).2
  | .populateCache => db.populate_cache

/-! ### Example states used to witness the theorems on concrete inputs -/

/-- The empty store (fresh `open_in_memory`). -/
def emptyDb : Db :=
  { pending_links := [], servers := [], status_images := [], cache := [] }

/-- A store with one pending link, one linked server (with a cached status
image) and one synced presence entry. -/
def exDb : Db :=
  { pending_links := [⟨"code1", 5, "SMP", 1000⟩],
    servers := [⟨"hashA", "SMP-live", 5⟩],
    status_images := [⟨"hashA", [7], 0⟩],
    cache := [("hashA", ⟨[("Steve", 3)], true⟩)] }

/-- A store with a linked server but no presence entry for it (the state
right after `create_server`, before any presence mutation). -/
def exDbNoCache : Db :=
  { pending_links := [], servers := [⟨"hashA", "SMP-live", 5⟩],
    status_images := [], cache := [] }

/-- A store with a pending link whose code would collide on insert. -/
def exDbDupCode : Db :=
  { pending_links := [⟨"c", 1, "n", 0⟩], servers := [], status_images := [],
    cache := [] }

/-! ### Generic list lemmas -/

theorem find?_filter_not {α : Type} (l : List α) (p : α → Bool) :
    (l.filter (fun a => !(p a))).find? p = none := by
  rw [List.find?_eq_none]
  intro x hx
  have hmem := List.mem_filter.mp hx
  simpa using hmem.2

theorem any_filter_not {α : Type} (l : List α) (p : α → Bool) :
    (l.filter (fun a => !(p a))).any p = false := by
  rw [Bool.eq_false_iff]
  intro hany
  obtain ⟨x, hx, hpx⟩ := List.any_eq_true.mp hany
  have := (List.mem_filter.mp hx).2
  simp [hpx] at this

theorem find?_append_some {α : Type} {l₁ : List α} (l₂ : List α) {p : α → Bool}
    {a : α} (h : l₁.find? p = some a) : (l₁ ++ l₂).find? p = some a := by
  induction l₁ with
  | nil => simp [List.find?] at h
  | cons x xs ih =>
    rw [List.cons_append]
    cases hx : p x with
    | true => rw [List.find?_cons_of_pos _ hx] at h ⊢; exact h
    | false =>
      rw [List.find?_cons_of_neg _ (by simp [hx])] at h ⊢
      exact ih h

theorem insertLe_perm {α : Type} (le : α → α → Bool) (a : α) (l : List α) :
    List.Perm (insertLe le a l) (a :: l) := by
  induction l with
  | nil => simp [insertLe]
  | cons b rest ih =>
    unfold insertLe
    by_cases hle : le a b = true
    · simp [hle]
    · rw [Bool.not_eq_true] at hle
      simp only [hle, Bool.false_eq_true, if_false]
      exact List.Perm.trans (List.Perm.cons b ih) (List.Perm.swap a b rest)

theorem sortByLe_perm {α : Type} (le : α → α → Bool) (l : List α) :
    List.Perm (sortByLe le l) l := by
  induction l with
  | nil => simp [sortByLe]
  | cons a rest ih =>
    exact List.Perm.trans (insertLe_perm le a (sortByLe le rest))
      (List.Perm.cons a ih)

/-! ### Presence-cache lookup lemmas -/

theorem cacheGet_update_self (c : Cache) (h : String)
    (f : ServerState → ServerState) :
    cacheGet (cacheUpdate c h f) h = (cacheGet c h).map f := by
  induction c with
  | nil => rfl
  | cons e rest ih =>
    obtain ⟨k, s⟩ := e
    by_cases hk : k = h
    · subst hk
      simp [cacheUpdate, cacheGet, List.find?]
    · have hk' : (k == h) = false := by simpa using hk
      simp only [cacheUpdate, hk', Bool.false_eq_true, if_false]
      simp only [cacheGet, List.find?, hk'] at ih ⊢
      exact ih

theorem cacheGet_update_ne (c : Cache) (h h' : String)
    (f : ServerState → ServerState) (hne : h' ≠ h) :
    cacheGet (cacheUpdate c h f) h' = cacheGet c h' := by
  induction c with
  | nil => rfl
  | cons e rest ih =>
    obtain ⟨k, s⟩ := e
    by_cases hk : k = h
    · subst hk
      have hk' : (k == h') = false := by simpa using fun e => hne e.symm
      simp [cacheUpdate, cacheGet, List.find?, hk']
    · have hk' : (k == h) = false := by simpa using hk
      simp only [cacheUpdate, hk', Bool.false_eq_true, if_false]
      by_cases hk2 : k = h'
      · subst hk2
        simp [cacheGet, List.find?]
      · have hk2' : (k == h') = false := by simpa using hk2
        simp only [cacheGet, List.find?, hk2'] at ih ⊢
        exact ih

theorem cacheUpdate_of_none (c : Cache) (h : String)
    (f : ServerState → ServerState) (hnone : cacheGet c h = none) :
    cacheUpdate c h f = c := by
  induction c with
  | nil => rfl
  | cons e rest ih =>
    obtain ⟨k, s⟩ := e
    by_cases hk : k = h
    · subst hk
      simp [cacheGet, List.find?] at hnone
    · have hk' : (k == h) = false := by simpa using hk
      simp only [cacheGet, List.find?, hk'] at hnone
      simp only [cacheUpdate, hk', Bool.false_eq_true, if_false]
      rw [ih hnone]

theorem cacheGet_append_single (c : Cache) (h h' : String) (s : ServerState) :
    cacheGet (c ++ [(h, s)]) h' =
      match cacheGet c h' with
      | some t => some t
      | none => if h == h' then some s else none := by
  cases hc : cacheGet c h' with
  | some t =>
    simp only [cacheGet] at hc ⊢
    obtain ⟨p, hp, hps⟩ : ∃ p, List.find? (fun p => p.1 == h') c = some p ∧
        p.2 = t := by
      cases hf : List.find? (fun p => p.1 == h') c with
      | none => simp [hf] at hc
      | some p => exact ⟨p, rfl, by simp [hf] at hc; exact hc⟩
    rw [find?_append_some _ hp]
    simp [hps]
  | none =>
    simp only [cacheGet] at hc ⊢
    have hf : List.find? (fun p => p.1 == h') c = none := by
      cases hf : List.find? (fun p => p.1 == h') c with
      | none => rfl
      | some p => simp [hf] at hc
    rw [List.find?_append, hf]
    cases hhh : (h == h') with
    | true =>
      have : h = h' := eq_of_beq hhh
      subst this
      simp [List.find?]
    | false =>
      have hne : ¬ h = h' := by simpa using hhh
      simp [List.find?, hhh, hne]

theorem cacheGet_remove_self (c : Cache) (h : String) :
    cacheGet (cacheRemove c h) h = none := by
  unfold cacheGet cacheRemove
  rw [find?_filter_not c (fun p => p.1 == h)]
  rfl

theorem cacheGet_remove_ne (c : Cache) (h h' : String) (hne : h' ≠ h) :
    cacheGet (cacheRemove c h) h' = cacheGet c h' := by
  induction c with
  | nil => rfl
  | cons e rest ih =>
    obtain ⟨k, s⟩ := e
    by_cases hk : k = h
    · subst hk
      have hk' : (k == h') = false := by simpa using fun e => hne e.symm
      simp [cacheRemove, cacheGet, List.find?, hk'] at ih ⊢
      exact ih
    · have hk' : (k == h) = false := by simpa using hk
      by_cases hk2 : k = h'
      · subst hk2
        simp [cacheRemove, cacheGet, List.find?, hk']
      · have hk2' : (k == h') = false := by simpa using hk2
        simp [cacheRemove, cacheGet, List.find?, hk', hk2'] at ih ⊢
        exact ih

theorem cacheGet_entryOrInsert_self (c : Cache) (h : String)
    (f : ServerState → ServerState) :
    cacheGet (cacheEntryOrInsert c h f) h =
      some (f ((cacheGet c h).getD ServerState.new)) := by
  unfold cacheEntryOrInsert
  cases hc : cacheGet c h with
  | some s => rw [cacheGet_update_self, hc]; rfl
  | none =>
    rw [cacheGet_append_single, hc]
    simp

theorem cacheGet_entryOrInsert_ne (c : Cache) (h h' : String)
    (f : ServerState → ServerState) (hne : h' ≠ h) :
    cacheGet (cacheEntryOrInsert c h f) h' = cacheGet c h' := by
  unfold cacheEntryOrInsert
  cases hc : cacheGet c h with
  | some s => exact cacheGet_update_ne c h h' f hne
  | none =>
    rw [cacheGet_append_single]
    have : (h == h') = false := by simpa using fun e => hne e.symm
    cases hc' : cacheGet c h' <;> simp [this]

theorem cacheGet_populate_of_some (hs : List String) (c : Cache) (h : String)
    (s : ServerState) (hsome : cacheGet c h = some s) :
    cacheGet (populateCacheFrom c hs) h = some s := by
  induction hs generalizing c with
  | nil => simpa [populateCacheFrom] using hsome
  | cons x rest ih =>
    unfold populateCacheFrom
    by_cases hx : (cacheGet c x).isSome = true
    · rw [if_pos hx]
      exact ih c hsome
    · rw [if_neg hx]
      apply ih
      rw [cacheGet_append_single, hsome]

/-! ### Roster list lemmas -/

theorem roster_eq (db : Db) (h : String) :
    db.roster h = ((cacheGet db.cache h).getD ServerState.new).players := by
  unfold Db.roster
  cases cacheGet db.cache h <;> rfl

theorem addPlayerList_of_not_mem (ps : List (String × Int)) (n : String)
    (t : Int) (hnm : n ∉ namesOf ps) : addPlayerList ps n t = ps ++ [(n, t)] := by
  induction ps with
  | nil => rfl
  | cons q rest ih =>
    obtain ⟨m, u⟩ := q
    simp only [namesOf, List.map_cons, List.mem_cons, not_or] at hnm
    have hm : (m == n) = false := by simpa using fun e => hnm.1 e.symm
    simp only [addPlayerList, hm, Bool.false_eq_true, if_false, List.cons_append,
      List.cons.injEq, true_and]
    exact ih hnm.2

theorem findPlayerIdx_of_not_mem (ps : List (String × Int)) (n : String)
    (hnm : n ∉ namesOf ps) : findPlayerIdx ps n = none := by
  induction ps with
  | nil => rfl
  | cons q rest ih =>
    simp only [namesOf, List.map_cons, List.mem_cons, not_or] at hnm
    have hm : (q.1 == n) = false := by simpa using fun e => hnm.1 e.symm
    simp only [findPlayerIdx, hm, Bool.false_eq_true, if_false]
    rw [ih hnm.2]
    rfl

theorem findPlayerIdx_append_self (ps : List (String × Int)) (n : String)
    (t : Int) (hnm : n ∉ namesOf ps) :
    findPlayerIdx (ps ++ [(n, t)]) n = some ps.length := by
  induction ps with
  | nil => simp [findPlayerIdx]
  | cons q rest ih =>
    simp only [namesOf, List.map_cons, List.mem_cons, not_or] at hnm
    have hm : (q.1 == n) = false := by simpa using fun e => hnm.1 e.symm
    simp only [List.cons_append, findPlayerIdx, hm, Bool.false_eq_true, if_false,
      List.append_eq]
    rw [ih hnm.2]
    simp

theorem findPlayerIdx_lt_length (ps : List (String × Int)) (n : String)
    (i : Nat) (hidx : findPlayerIdx ps n = some i) : i < ps.length := by
  induction ps generalizing i with
  | nil => simp [findPlayerIdx] at hidx
  | cons q rest ih =>
    simp only [findPlayerIdx] at hidx
    by_cases hq : (q.1 == n) = true
    · simp only [hq, if_true, Option.some.injEq] at hidx
      rw [← hidx]
      simp
    · rw [Bool.not_eq_true] at hq
      simp only [hq, Bool.false_eq_true, if_false] at hidx
      cases hrec : findPlayerIdx rest n with
      | none => simp [hrec] at hidx
      | some j =>
        rw [hrec] at hidx
        simp only [Option.map_some', Option.some.injEq] at hidx
        have := ih j hrec
        simp only [List.length_cons]
        omega

theorem set_concat_length {α : Type} (ps : List α) (a b : α) :
    (ps ++ [a]).set ps.length b = ps ++ [b] := by
  induction ps with
  | nil => rfl
  | cons x xs ih => simp [List.set, ih]

theorem swapRemove_concat {α : Type} (ps : List α) (a : α) :
    swapRemove (ps ++ [a]) ps.length = ps := by
  unfold swapRemove
  rw [List.getLast?_concat]
  show ((ps ++ [a]).set ps.length a).dropLast = ps
  rw [set_concat_length, List.dropLast_concat]

theorem removePlayerList_of_not_mem (ps : List (String × Int)) (n : String)
    (hnm : n ∉ namesOf ps) : removePlayerList ps n = ps := by
  unfold removePlayerList
  rw [findPlayerIdx_of_not_mem ps n hnm]

theorem removePlayerList_append_self (ps : List (String × Int)) (n : String)
    (t : Int) (hnm : n ∉ namesOf ps) :
    removePlayerList (ps ++ [(n, t)]) n = ps := by
  unfold removePlayerList
  rw [findPlayerIdx_append_self ps n t hnm]
  exact swapRemove_concat ps (n, t)

theorem set_perm_cons {α : Type} (xs : List α) (i : Nat) (b : α)
    (hi : i < xs.length) :
    List.Perm (xs.set i b) (b :: xs.eraseIdx i) := by
  induction xs generalizing i with
  | nil => simp at hi
  | cons x xs ih =>
    cases i with
    | zero => simp [List.set, List.eraseIdx]
    | succ n =>
      simp only [List.set, List.eraseIdx]
      refine List.Perm.trans (List.Perm.cons x (ih n (by simpa using hi))) ?_
      exact List.Perm.swap b x (xs.eraseIdx n)

theorem eraseIdx_concat_lt {α : Type} (xs : List α) (a : α) (i : Nat)
    (hi : i < xs.length) :
    (xs ++ [a]).eraseIdx i = xs.eraseIdx i ++ [a] := by
  induction xs generalizing i with
  | nil => simp at hi
  | cons x xs ih =>
    cases i with
    | zero => simp [List.eraseIdx]
    | succ n =>
      simp only [List.cons_append, List.eraseIdx, List.cons.injEq, true_and]
      exact ih n (by simpa using hi)

theorem eraseIdx_concat_length {α : Type} (xs : List α) (a : α) :
    (xs ++ [a]).eraseIdx xs.length = xs := by
  induction xs with
  | nil => rfl
  | cons x xs ih => simp [List.eraseIdx, ih]

theorem set_concat_lt {α : Type} (xs : List α) (a b : α) (i : Nat)
    (hi : i < xs.length) :
    (xs ++ [a]).set i b = xs.set i b ++ [a] := by
  induction xs generalizing i with
  | nil => simp at hi
  | cons x xs ih =>
    cases i with
    | zero => simp [List.set]
    | succ n =>
      simp only [List.cons_append, List.set, List.cons.injEq, true_and]
      exact ih n (by simpa using hi)

theorem swapRemove_perm_eraseIdx {α : Type} (ps : List α) (i : Nat)
    (hi : i < ps.length) :
    List.Perm (swapRemove ps i) (ps.eraseIdx i) := by
  rcases List.eq_nil_or_concat ps with rfl | ⟨xs, a, rfl⟩
  · simp at hi
  · rw [List.concat_eq_append] at hi ⊢
    unfold swapRemove
    rw [List.getLast?_concat]
    show List.Perm (((xs ++ [a]).set i a).dropLast) ((xs ++ [a]).eraseIdx i)
    rcases Nat.lt_or_ge i xs.length with hlt | hge
    · rw [set_concat_lt xs a a i hlt, List.dropLast_concat,
        eraseIdx_concat_lt xs a i hlt]
      exact List.Perm.trans (set_perm_cons xs i a hlt)
        (List.perm_append_singleton a (xs.eraseIdx i)).symm
    · have hieq : i = xs.length := by
        simp only [List.length_append, List.length_cons, List.length_nil] at hi
        omega
      subst hieq
      rw [set_concat_length, List.dropLast_concat, eraseIdx_concat_length]

theorem namesOf_removePlayerList_nodup (ps : List (String × Int)) (n : String)
    (hnd : (namesOf ps).Nodup) : (namesOf (removePlayerList ps n)).Nodup := by
  unfold removePlayerList
  cases hidx : findPlayerIdx ps n with
  | none => exact hnd
  | some i =>
    have hi := findPlayerIdx_lt_length ps n i hidx
    have hperm : List.Perm (namesOf (swapRemove ps i)) (namesOf (ps.eraseIdx i)) :=
      (swapRemove_perm_eraseIdx ps i hi).map _
    have hsub : List.Sublist (namesOf (ps.eraseIdx i)) (namesOf ps) :=
      (List.eraseIdx_sublist ps i).map _
    exact hperm.symm.nodup (hsub.nodup hnd)

theorem namesOf_addPlayerList (ps : List (String × Int)) (n : String) (t : Int) :
    namesOf (addPlayerList ps n t) =
      if n ∈ namesOf ps then namesOf ps else namesOf ps ++ [n] := by
  induction ps with
  | nil => simp [addPlayerList, namesOf]
  | cons q rest ih =>
    obtain ⟨m, u⟩ := q
    by_cases hm : m = n
    · subst hm
      simp [addPlayerList, namesOf]
    · have hm' : (m == n) = false := by simpa using hm
      have hne : ¬ n = m := fun e => hm e.symm
      simp only [addPlayerList, hm', Bool.false_eq_true, if_false, namesOf,
        List.map_cons, List.mem_cons, hne, false_or, List.cons_append] at ih ⊢
      rw [ih]
      by_cases hin : n ∈ List.map (fun x => x.1) rest
      · simp [hin]
      · simp [hin]

theorem namesOf_addPlayerList_nodup (ps : List (String × Int)) (n : String)
    (t : Int) (hnd : (namesOf ps).Nodup) :
    (namesOf (addPlayerList ps n t)).Nodup := by
  rw [namesOf_addPlayerList]
  by_cases hin : n ∈ namesOf ps
  · simp [hin, hnd]
  · simp only [hin, if_false]
    refine (List.perm_append_singleton n (namesOf ps)).symm.nodup ?_
    exact List.nodup_cons.mpr ⟨hin, hnd⟩

/-! ### Pending-link operation lemmas -/

theorem consume_found (db : Db) (code : String) (now : Int) (l : PendingLink)
    (hf : db.pending_links.find? (fun p => p.code == code) = some l) :
    db.consume_pending_link code now =
      (if now - l.created_at > 600 then .error .PendingLinkNotFound else .ok l,
       { db with pending_links :=
           db.pending_links.filter (fun p => !(p.code == code)) }) := by
  simp only [Db.consume_pending_link, hf, PendingLink.is_expired]
  by_cases hexp : now - l.created_at > 600
  · rw [if_pos (by simpa using hexp), if_pos hexp]
  · rw [if_neg (by simpa using hexp), if_neg hexp]

theorem cleanup_mem_iff (db : Db) (l : PendingLink) (now : Int)
    (hl : l ∈ db.pending_links) :
    l ∈ (db.cleanup_expired_links now).2.pending_links ↔
      ¬ now - l.created_at > 600 := by
  simp only [Db.cleanup_expired_links]
  rw [List.mem_filter]
  constructor
  · rintro ⟨-, hb⟩
    intro hgt
    have hlt : l.created_at < now - 600 := by omega
    simp [hlt] at hb
  · intro hng
    refine ⟨hl, ?_⟩
    have hlt : ¬ l.created_at < now - 600 := by omega
    simp [hlt]

/-! ### Claim C2 -/

/-- C2: `consume_pending_link(code, now)` fails NotFound when no pending
link with that code exists.  When a link with that code is present it
deletes the row (the code can no longer be looked up, a second consumption
fails NotFound, and every other row survives); it fails NotFound when
`now - created_at > 600` and returns the stored record otherwise. -/
theorem consume_pending_link_spec (db : Db) (code : String) (now now2 : Int) :
    ((∀ l ∈ db.pending_links, l.code ≠ code) →
        db.consume_pending_link code now = (.error .PendingLinkNotFound, db)) ∧
    (∀ l, db.pending_links.find? (fun p => p.code == code) = some l →
      ((db.consume_pending_link code now).2.get_pending_link code = none ∧
       (∀ l' ∈ db.pending_links, l'.code ≠ code →
          l' ∈ (db.consume_pending_link code now).2.pending_links) ∧
       (now - l.created_at > 600 →
          (db.consume_pending_link code now).1 = .error .PendingLinkNotFound) ∧
       (¬ now - l.created_at > 600 →
          (db.consume_pending_link code now).1 = .ok l) ∧
       ((db.consume_pending_link code now).2.consume_pending_link
          code now2).1 = .error .PendingLinkNotFound)) := by
  constructor
  · intro hnone
    have hf : db.pending_links.find? (fun p => p.code == code) = none := by
      rw [List.find?_eq_none]
      intro x hx
      simpa using hnone x hx
    simp only [Db.consume_pending_link, hf]
  · intro l hf
    simp only [consume_found db code now l hf]
    refine ⟨?_, ?_, ?_, ?_, ?_⟩
    · exact find?_filter_not db.pending_links (fun p => p.code == code)
    · intro l' hl' hne
      exact List.mem_filter.mpr ⟨hl', by simpa using hne⟩
    · intro hexp
      rw [if_pos hexp]
    · intro hexp
      rw [if_neg hexp]
    · have hnone :
          (db.pending_links.filter (fun p => !(p.code == code))).find?
            (fun p => p.code == code) = none :=
        find?_filter_not db.pending_links (fun p => p.code == code)
      simp only [Db.consume_pending_link, Db.get_pending_link, hnone]

/-! ### Claim C10 -/

/-- C10: for a stored pending link, `consume_pending_link` succeeds exactly
when the age is not strictly greater than 600 (so age exactly 600 still
succeeds), and `cleanup_expired_links` deletes the row exactly under the
same strict condition (at `created_at + 600` the row survives). -/
theorem ttl_boundary_agreement (db : Db) (l : PendingLink) (now : Int) :
    (db.pending_links.find? (fun p => p.code == l.code) = some l →
      (((db.consume_pending_link l.code now).1 = .ok l ↔
          ¬ now - l.created_at > 600) ∧
        (db.consume_pending_link l.code (l.created_at + 600)).1 = .ok l)) ∧
    (l ∈ db.pending_links →
      ((l ∈ (db.cleanup_expired_links now).2.pending_links ↔
          ¬ now - l.created_at > 600) ∧
        l ∈ (db.cleanup_expired_links (l.created_at + 600)).2.pending_links)) := by
  constructor
  · intro hf
    constructor
    · simp only [consume_found db l.code now l hf]
      by_cases hexp : now - l.created_at > 600
      · rw [if_pos hexp]
        simp [hexp]
      · rw [if_neg hexp]
        simp [hexp]
    · have h600 : ¬ (l.created_at + 600 - l.created_at > 600) := by omega
      simp only [consume_found db l.code (l.created_at + 600) l hf]
      rw [if_neg h600]
  · intro hl
    constructor
    · exact cleanup_mem_iff db l now hl
    · rw [cleanup_mem_iff db l (l.created_at + 600) hl]
      omega

/-! ### Claim C4 (amended) -/

/-- C4 (amended): `create_pending_link` fails with `ServerNameConflict`
whenever a Server with the same `(guild_id, server_name)` exists, for any
code, changing nothing; otherwise — provided no pending link with the same
code already exists — it inserts the row and returns a record carrying
exactly the arguments. -/
theorem create_pending_link_conflict_spec (db : Db) (code : String) (gid : Nat)
    (name : String) (now : Int) :
    (db.server_name_exists gid name = true →
        db.create_pending_link code gid name now =
          (.error .ServerNameConflict, db)) ∧
    (db.server_name_exists gid name = false →
      (∀ l ∈ db.pending_links, l.code ≠ code) →
        db.create_pending_link code gid name now =
          (.ok ⟨code, gid, name, now⟩,
           { db with pending_links :=
               db.pending_links ++ [⟨code, gid, name, now⟩] })) := by
  constructor
  · intro hconf
    unfold Db.create_pending_link
    rw [if_pos hconf]
  · intro hnc hfresh
    have hany : db.pending_links.any (fun l => l.code == code) = false := by
      rw [Bool.eq_false_iff]
      intro hany
      obtain ⟨x, hx, hpx⟩ := List.any_eq_true.mp hany
      exact hfresh x hx (by simpa using hpx)
    unfold Db.create_pending_link
    rw [if_neg (by simp [hnc]), if_neg (by simp [hany])]

/-- C4 counterexample: in a store with no server named `n` in guild 1 but a
pending link with code `c`, `create_pending_link "c" 1 "n" 5` does not
return the inserted record — it fails with a storage error (primary-key
violation), so the unconditional "otherwise it inserts and returns the
record" is false. -/
theorem create_pending_link_duplicate_code_cex :
    exDbDupCode.server_name_exists 1 "n" = false ∧
    exDbDupCode.create_pending_link "c" 1 "n" 5 =
      (.error .Sqlite, exDbDupCode) := by
  decide

/-! ### Claim C5 -/

/-- C5: deleting an existing server by api key succeeds and removes the
durable `servers` row, the presence-cache entry, and the cached status
image for that key; a subsequent `get_server_by_api_key` returns absent. -/
theorem delete_server_cascade (db : Db) (h : String)
    (hex : db.server_exists h = true) :
    (db.delete_server_by_api_key h).1 = .ok () ∧
    (db.delete_server_by_api_key h).2.server_exists h = false ∧
    cacheGet (db.delete_server_by_api_key h).2.cache h = none ∧
    (db.delete_server_by_api_key h).2.get_status_image h = none ∧
    (db.delete_server_by_api_key h).2.get_server_by_api_key h = none := by
  unfold Db.delete_server_by_api_key
  rw [if_pos hex]
  refine ⟨rfl, ?_, ?_, ?_, ?_⟩
  · exact any_filter_not db.servers (fun s => s.api_key_hash == h)
  · exact cacheGet_remove_self db.cache h
  · unfold Db.get_status_image
    rw [find?_filter_not db.status_images (fun i => i.api_key_hash == h)]
    rfl
  · unfold Db.get_server_by_api_key
    exact find?_filter_not db.servers (fun s => s.api_key_hash == h)

/-! ### Claim C6 -/

/-- C6: for an existing server, `sync_players` succeeds and replaces the
roster wholesale: afterwards the roster is exactly the given names, each
paired with `now`, and the server reads as synced. -/
theorem sync_players_replaces_roster (db : Db) (h : String)
    (names : List String) (now : Int) (hex : db.server_exists h = true) :
    (db.sync_players h names now).1 = .ok () ∧
    (db.sync_players h names now).2.roster h =
      names.map (fun n => (n, now)) ∧
    (db.sync_players h names now).2.is_server_synced h = true := by
  simp only [Db.sync_players, hex, Bool.not_true, Bool.false_eq_true, if_false]
  refine ⟨trivial, ?_, ?_⟩
  · rw [roster_eq]
    rw [cacheGet_entryOrInsert_self]
    rfl
  · unfold Db.is_server_synced
    rw [cacheGet_entryOrInsert_self]
    rfl

/-! ### Claim C7 -/

/-- C7: for an existing server, a `player_join` of a name not in the roster
followed by `player_leave` of the same name restores the roster exactly;
and `player_leave` of a name not in the roster succeeds and leaves the
roster unchanged. -/
theorem join_leave_roundtrip (db : Db) (h p q : String) (t : Int)
    (hex : db.server_exists h = true) :
    (p ∉ namesOf (db.roster h) →
      ((db.player_join h p t).1 = .ok () ∧
       ((db.player_join h p t).2.player_leave h p).1 = .ok () ∧
       ((db.player_join h p t).2.player_leave h p).2.roster h = db.roster h)) ∧
    (q ∉ namesOf (db.roster h) →
      ((db.player_leave h q).1 = .ok () ∧
       (db.player_leave h q).2.roster h = db.roster h)) := by
  have hnot : ¬ (!db.server_exists h) = true := by simp [hex]
  constructor
  · intro hp
    have hp' : p ∉ namesOf ((cacheGet db.cache h).getD ServerState.new).players := by
      rw [roster_eq] at hp
      exact hp
    have hjoin : db.player_join h p t =
        (.ok (), { db with cache := (cacheEntryOrInsert db.cache h
            (fun s => s.add_player p t)) }) := by
      unfold Db.player_join
      rw [if_neg hnot]
    have hex1 : ({ db with cache := (cacheEntryOrInsert db.cache h
        (fun s => s.add_player p t)) } : Db).server_exists h = true := hex
    have hnot1 : ¬ (!({ db with cache := (cacheEntryOrInsert db.cache h
        (fun s => s.add_player p t)) } : Db).server_exists h) = true := by
      simp [hex1]
    have hleave : ({ db with cache := (cacheEntryOrInsert db.cache h
        (fun s => s.add_player p t)) } : Db).player_leave h p =
        (.ok (), { db with cache := (cacheUpdate
            (cacheEntryOrInsert db.cache h (fun s => s.add_player p t)) h
            (fun s => s.remove_player p)) }) := by
      unfold Db.player_leave
      rw [if_neg hnot1]
    simp only [hjoin, hleave]
    refine ⟨trivial, trivial, ?_⟩
    rw [roster_eq, roster_eq]
    simp only [cacheGet_update_self, cacheGet_entryOrInsert_self,
      Option.map_some', Option.getD_some, ServerState.add_player,
      ServerState.remove_player]
    rw [addPlayerList_of_not_mem _ _ _ hp']
    exact removePlayerList_append_self _ _ _ hp'
  · intro hq
    have hleave : db.player_leave h q =
        (.ok (), { db with cache := (cacheUpdate db.cache h
            (fun s => s.remove_player q)) }) := by
      unfold Db.player_leave
      rw [if_neg hnot]
    simp only [hleave]
    refine ⟨trivial, ?_⟩
    cases hc : cacheGet db.cache h with
    | none =>
      have hupd : cacheUpdate db.cache h (fun s => s.remove_player q) = db.cache :=
        cacheUpdate_of_none db.cache h _ hc
      simp [Db.roster, hupd]
    | some s =>
      rw [roster_eq, roster_eq]
      rw [cacheGet_update_self, hc]
      simp only [Option.map_some', Option.getD_some, ServerState.remove_player]
      apply removePlayerList_of_not_mem
      simpa [Db.roster, hc] using hq

/-! ### Claim C9 -/

/-- C9: for an api key absent from the presence cache, queries degrade
rather than fail: `is_server_synced` is false, `get_online_players` is
empty, and both roster queries report an empty player list for any server
row carrying that key. -/
theorem absent_cache_entry_degrades (db : Db) (h : String)
    (hc : cacheGet db.cache h = none) :
    db.is_server_synced h = false ∧
    db.get_online_players h = [] ∧
    db.playersFor h = [] ∧
    (∀ gid name s,
        db.servers.find? (fun x => x.guild_id == gid && x.name == name) =
          some s →
        s.api_key_hash = h →
        db.get_server_with_players gid name = .ok ⟨name, []⟩) ∧
    (∀ gid (s : Server), s ∈ db.servers → s.guild_id = gid →
        s.api_key_hash = h →
        ServerWithPlayers.mk s.name [] ∈ db.get_servers_with_players gid) := by
  refine ⟨?_, ?_, ?_, ?_, ?_⟩
  · unfold Db.is_server_synced
    rw [hc]
  · simp [Db.get_online_players, hc, sortByLe]
  · simp [Db.playersFor, hc, sortByLe]
  · intro gid name s hfind hhash
    have hpf : db.playersFor s.api_key_hash = [] := by
      rw [hhash]
      simp [Db.playersFor, hc, sortByLe]
    simp only [Db.get_server_with_players, hfind, hpf]
  · intro gid s hs hgid hhash
    have hmem : s ∈ db.guild_servers gid := by
      unfold Db.guild_servers
      refine (sortByLe_perm _ _).mem_iff.mpr ?_
      exact List.mem_filter.mpr ⟨hs, by simpa using hgid⟩
    have hmap := List.mem_map_of_mem
      (fun s : Server => ServerWithPlayers.mk s.name
        (db.playersFor s.api_key_hash)) hmem
    have hpf : db.playersFor s.api_key_hash = [] := by
      rw [hhash]
      simp [Db.playersFor, hc, sortByLe]
    unfold Db.get_servers_with_players
    rw [← hpf]
    exact hmap

/-! ### Claim C1 (amended) -/

/-- C1 (amended): `player_join`, `player_leave` and `sync_players` each
fail with `InvalidApiKey`, changing nothing, when no server row with the
key exists.  Otherwise each succeeds; `player_join` and `sync_players`
create the cache entry on first touch (so the entry exists afterwards),
while `player_leave` mutates only an existing entry and leaves the cache
unchanged (creating nothing) when the entry is absent. -/
theorem presence_mutation_key_check (db : Db) (h p : String)
    (ps : List String) (t now : Int) :
    (db.server_exists h = false →
      (db.player_join h p t = (.error .InvalidApiKey, db) ∧
       db.player_leave h p = (.error .InvalidApiKey, db) ∧
       db.sync_players h ps now = (.error .InvalidApiKey, db))) ∧
    (db.server_exists h = true →
      ((db.player_join h p t).1 = .ok () ∧
       (cacheGet (db.player_join h p t).2.cache h).isSome = true ∧
       (db.sync_players h ps now).1 = .ok () ∧
       (cacheGet (db.sync_players h ps now).2.cache h).isSome = true ∧
       (db.player_leave h p).1 = .ok () ∧
       (cacheGet db.cache h = none → (db.player_leave h p).2 = db))) := by
  constructor
  · intro hex
    have hcond : (!db.server_exists h) = true := by simp [hex]
    refine ⟨?_, ?_, ?_⟩
    · unfold Db.player_join
      rw [if_pos hcond]
    · unfold Db.player_leave
      rw [if_pos hcond]
    · unfold Db.sync_players
      rw [if_pos hcond]
  · intro hex
    have hnot : ¬ (!db.server_exists h) = true := by simp [hex]
    refine ⟨?_, ?_, ?_, ?_, ?_, ?_⟩
    · unfold Db.player_join
      rw [if_neg hnot]
    · unfold Db.player_join
      rw [if_neg hnot]
      show (cacheGet (cacheEntryOrInsert db.cache h
        (fun s => s.add_player p t)) h).isSome = true
      rw [cacheGet_entryOrInsert_self]
      rfl
    · unfold Db.sync_players
      rw [if_neg hnot]
    · unfold Db.sync_players
      rw [if_neg hnot]
      show (cacheGet (cacheEntryOrInsert db.cache h
        (fun s => s.sync_players (ps.map (fun q => (q, now))))) h).isSome = true
      rw [cacheGet_entryOrInsert_self]
      rfl
    · unfold Db.player_leave
      rw [if_neg hnot]
    · intro hcnone
      unfold Db.player_leave
      rw [if_neg hnot]
      show ({ db with cache := (cacheUpdate db.cache h
        (fun s => s.remove_player p)) } : Db) = db
      rw [cacheUpdate_of_none db.cache h _ hcnone]

/-- C1 counterexample: on a store whose server `hashA` exists durably but
has no presence-cache entry, `player_leave` succeeds yet the cache entry
for that key still does not exist afterwards — so "after a successful call
the cache entry for that key exists" is false for `player_leave`. -/
theorem player_leave_absent_entry_cex :
    (exDbNoCache.player_leave "hashA" "p").1 = .ok () ∧
    cacheGet (exDbNoCache.player_leave "hashA" "p").2.cache "hashA" = none := by
  decide

/-! ### Claim C3 (amended) -/

/-- C3 (amended): `add_player` and `remove_player` preserve pairwise
distinctness of the roster's names, but `sync_players` stores the given
list as-is: its result has pairwise-distinct names only when the given
list itself does. -/
theorem roster_names_nodup_preserved (s : ServerState) (n : String) (t : Int)
    (ps : List (String × Int)) (hnd : (namesOf s.players).Nodup) :
    (namesOf (s.add_player n t).players).Nodup ∧
    (namesOf (s.remove_player n).players).Nodup ∧
    ((namesOf ps).Nodup → (namesOf (s.sync_players ps).players).Nodup) := by
  refine ⟨?_, ?_, ?_⟩
  · exact namesOf_addPlayerList_nodup s.players n t hnd
  · exact namesOf_removePlayerList_nodup s.players n hnd
  · intro hps
    exact hps

/-- C3 counterexample: `sync_players` on an existing server with the list
`["a", "a"]` yields a roster whose stored names are `["a", "a"]` — not
pairwise distinct, refuting "sync_players with a list that repeats a name
still yields a roster with pairwise-distinct names". -/
theorem sync_players_duplicate_names_cex :
    namesOf ((exDbNoCache.sync_players "hashA" ["a", "a"] 5).2.roster
      "hashA") = ["a", "a"] ∧
    ¬ (namesOf ((exDbNoCache.sync_players "hashA" ["a", "a"] 5).2.roster
      "hashA")).Nodup := by
  decide

/-! ### Cache footprint of each mutating operation -/

theorem create_pending_link_cache (db : Db) (code : String) (gid : Nat)
    (name : String) (now : Int) :
    (db.create_pending_link code gid name now).2.cache = db.cache := by
  unfold Db.create_pending_link
  split
  · rfl
  · split
    · rfl
    · rfl

theorem consume_pending_link_cache (db : Db) (code : String) (now : Int) :
    (db.consume_pending_link code now).2.cache = db.cache := by
  unfold Db.consume_pending_link
  split
  · rfl
  · split
    · rfl
    · rfl

theorem cleanup_expired_links_cache (db : Db) (now : Int) :
    (db.cleanup_expired_links now).2.cache = db.cache := rfl

theorem create_server_cache (db : Db) (h name : String) (gid : Nat) :
    (db.create_server h name gid).2.cache = db.cache := by
  unfold Db.create_server
  split
  · rfl
  · split
    · rfl
    · rfl

theorem store_status_image_cache (db : Db) (h : String) (d : List Nat)
    (now : Int) :
    (db.store_status_image h d now).2.cache = db.cache := by
  unfold Db.store_status_image
  split
  · rfl
  · rfl

theorem player_join_cache (db : Db) (h p : String) (t : Int) :
    (db.player_join h p t).2.cache =
      if db.server_exists h = true then
        cacheEntryOrInsert db.cache h (fun s => s.add_player p t)
      else db.cache := by
  unfold Db.player_join
  by_cases hex : db.server_exists h = true
  · rw [if_neg (by simp [hex]), if_pos hex]
  · have hex' : db.server_exists h = false := by simpa using hex
    rw [if_pos (by simp [hex']), if_neg hex]

theorem player_leave_cache (db : Db) (h p : String) :
    (db.player_leave h p).2.cache =
      if db.server_exists h = true then
        cacheUpdate db.cache h (fun s => s.remove_player p)
      else db.cache := by
  unfold Db.player_leave
  by_cases hex : db.server_exists h = true
  · rw [if_neg (by simp [hex]), if_pos hex]
  · have hex' : db.server_exists h = false := by simpa using hex
    rw [if_pos (by simp [hex']), if_neg hex]

theorem sync_players_cache (db : Db) (h : String) (ps : List String)
    (now : Int) :
    (db.sync_players h ps now).2.cache =
      if db.server_exists h = true then
        cacheEntryOrInsert db.cache h
          (fun s => s.sync_players (ps.map (fun p => (p, now))))
      else db.cache := by
  unfold Db.sync_players
  by_cases hex : db.server_exists h = true
  · rw [if_neg (by simp [hex]), if_pos hex]
  · have hex' : db.server_exists h = false := by simpa using hex
    rw [if_pos (by simp [hex']), if_neg hex]

theorem delete_server_by_api_key_cache (db : Db) (h : String) :
    (db.delete_server_by_api_key h).2.cache =
      if db.server_exists h = true then cacheRemove db.cache h
      else db.cache := by
  unfold Db.delete_server_by_api_key
  by_cases hex : db.server_exists h = true
  · rw [if_pos hex, if_pos hex]
  · rw [if_neg hex, if_neg hex]

theorem delete_server_cache_eq (db : Db) (gid : Nat) (name : String) :
    (db.delete_server gid name).2.cache =
      match db.servers.find?
          (fun s => s.guild_id == gid && s.name == name) with
      | none => db.cache
      | some srv => cacheRemove db.cache srv.api_key_hash := by
  unfold Db.delete_server
  cases hf : db.servers.find? (fun s => s.guild_id == gid && s.name == name) with
  | none => simp only [hf]
  | some srv => simp only [hf]

/-! ### Monotonicity of the synced flag under each cache transformer -/

theorem mono_cacheUpdate (c : Cache) (hq hk : String)
    (f : ServerState → ServerState)
    (hf : ∀ u, (f u).synced_since_boot = true) (s s' : ServerState)
    (h1 : cacheGet c hq = some s) (h2 : s.synced_since_boot = true)
    (h3 : cacheGet (cacheUpdate c hk f) hq = some s') :
    s'.synced_since_boot = true := by
  by_cases he : hq = hk
  · subst he
    rw [cacheGet_update_self, h1] at h3
    simp only [Option.map_some', Option.some.injEq] at h3
    rw [← h3]
    exact hf s
  · rw [cacheGet_update_ne c hk hq f he, h1] at h3
    injection h3 with hss
    rw [← hss]
    exact h2

theorem mono_cacheEntryOrInsert (c : Cache) (hq hk : String)
    (f : ServerState → ServerState)
    (hf : ∀ u, (f u).synced_since_boot = true) (s s' : ServerState)
    (h1 : cacheGet c hq = some s) (h2 : s.synced_since_boot = true)
    (h3 : cacheGet (cacheEntryOrInsert c hk f) hq = some s') :
    s'.synced_since_boot = true := by
  by_cases he : hq = hk
  · subst he
    rw [cacheGet_entryOrInsert_self] at h3
    injection h3 with hss
    rw [← hss]
    exact hf _
  · rw [cacheGet_entryOrInsert_ne c hk hq f he, h1] at h3
    injection h3 with hss
    rw [← hss]
    exact h2

theorem mono_cacheRemove (c : Cache) (hq hk : String) (s s' : ServerState)
    (h1 : cacheGet c hq = some s) (h2 : s.synced_since_boot = true)
    (h3 : cacheGet (cacheRemove c hk) hq = some s') :
    s'.synced_since_boot = true := by
  by_cases he : hq = hk
  · subst he
    rw [cacheGet_remove_self] at h3
    exact Option.noConfusion h3
  · rw [cacheGet_remove_ne c hk hq he, h1] at h3
    injection h3 with hss
    rw [← hss]
    exact h2

theorem mono_unchanged (c : Cache) (hq : String) (s s' : ServerState)
    (h1 : cacheGet c hq = some s) (h2 : s.synced_since_boot = true)
    (h3 : cacheGet c hq = some s') : s'.synced_since_boot = true := by
  rw [h1] at h3
  injection h3 with hss
  rw [← hss]
  exact h2

/-! ### Claim C8 -/

/-- C8: within one process lifetime `synced_since_boot` is monotone false
to true: fresh entries start false, `add_player` / `remove_player` /
`sync_players` each set it true, and no mutating `Database` operation ever
turns an existing entry's flag from true back to false. -/
theorem synced_since_boot_monotonic :
    ServerState.new.synced_since_boot = false ∧
    (∀ (s : ServerState) (n : String) (t : Int),
        (s.add_player n t).synced_since_boot = true) ∧
    (∀ (s : ServerState) (n : String),
        (s.remove_player n).synced_since_boot = true) ∧
    (∀ (s : ServerState) (ps : List (String × Int)),
        (s.sync_players ps).synced_since_boot = true) ∧
    (∀ (db : Db) (op : Op) (h : String) (s s' : ServerState),
        cacheGet db.cache h = some s → s.synced_since_boot = true →
        cacheGet (db.applyOp op).cache h = some s' →
        s'.synced_since_boot = true) := by
  refine ⟨rfl, fun _ _ _ => rfl, fun _ _ => rfl, fun _ _ => rfl, ?_⟩
  intro db op h s s' h1 h2 h3
  cases op with
  | createPendingLink code gid name now =>
    simp only [Db.applyOp, create_pending_link_cache] at h3
    exact mono_unchanged db.cache h s s' h1 h2 h3
  | consumePendingLink code now =>
    simp only [Db.applyOp, consume_pending_link_cache] at h3
    exact mono_unchanged db.cache h s s' h1 h2 h3
  | cleanupExpiredLinks now =>
    simp only [Db.applyOp, cleanup_expired_links_cache] at h3
    exact mono_unchanged db.cache h s s' h1 h2 h3
  | createServer hk name gid =>
    simp only [Db.applyOp, create_server_cache] at h3
    exact mono_unchanged db.cache h s s' h1 h2 h3
  | deleteServer gid name =>
    simp only [Db.applyOp, delete_server_cache_eq] at h3
    cases hf : db.servers.find?
        (fun x => x.guild_id == gid && x.name == name) with
    | none =>
      rw [hf] at h3
      exact mono_unchanged db.cache h s s' h1 h2 h3
    | some srv =>
      rw [hf] at h3
      exact mono_cacheRemove db.cache h srv.api_key_hash s s' h1 h2 h3
  | deleteServerByApiKey hk =>
    simp only [Db.applyOp, delete_server_by_api_key_cache] at h3
    by_cases hex : db.server_exists hk = true
    · rw [if_pos hex] at h3
      exact mono_cacheRemove db.cache h hk s s' h1 h2 h3
    · rw [if_neg hex] at h3
      exact mono_unchanged db.cache h s s' h1 h2 h3
  | playerJoin hk p now =>
    simp only [Db.applyOp, player_join_cache] at h3
    by_cases hex : db.server_exists hk = true
    · rw [if_pos hex] at h3
      exact mono_cacheEntryOrInsert db.cache h hk _ (fun _ => rfl) s s' h1 h2 h3
    · rw [if_neg hex] at h3
      exact mono_unchanged db.cache h s s' h1 h2 h3
  | playerLeave hk p =>
    simp only [Db.applyOp, player_leave_cache] at h3
    by_cases hex : db.server_exists hk = true
    · rw [if_pos hex] at h3
      exact mono_cacheUpdate db.cache h hk _ (fun _ => rfl) s s' h1 h2 h3
    · rw [if_neg hex] at h3
      exact mono_unchanged db.cache h s s' h1 h2 h3
  | syncPlayers hk ps now =>
    simp only [Db.applyOp, sync_players_cache] at h3
    by_cases hex : db.server_exists hk = true
    · rw [if_pos hex] at h3
      exact mono_cacheEntryOrInsert db.cache h hk _ (fun _ => rfl) s s' h1 h2 h3
    · rw [if_neg hex] at h3
      exact mono_unchanged db.cache h s s' h1 h2 h3
  | storeStatusImage hk d now =>
    simp only [Db.applyOp, store_status_image_cache] at h3
    exact mono_unchanged db.cache h s s' h1 h2 h3
  | populateCache =>
    simp only [Db.applyOp, Db.populate_cache] at h3
    rw [cacheGet_populate_of_some _ _ _ _ h1] at h3
    injection h3 with hss
    rw [← hss]
    exact h2

/-! ### Concrete witnesses -/

theorem consume_pending_link_spec_witness :
    emptyDb.consume_pending_link "nope" 0 =
      (.error .PendingLinkNotFound, emptyDb) ∧
    (exDb.consume_pending_link "code1" 1599).1 =
      .ok ⟨"code1", 5, "SMP", 1000⟩ ∧
    (exDb.consume_pending_link "code1" 1601).1 =
      .error .PendingLinkNotFound := by
  refine ⟨?_, ?_, ?_⟩
  · exact (consume_pending_link_spec emptyDb "nope" 0 0).1 (by decide)
  · exact ((consume_pending_link_spec exDb "code1" 1599 0).2
      ⟨"code1", 5, "SMP", 1000⟩ (by decide)).2.2.2.1 (by decide)
  · exact ((consume_pending_link_spec exDb "code1" 1601 0).2
      ⟨"code1", 5, "SMP", 1000⟩ (by decide)).2.2.1 (by decide)

theorem ttl_boundary_agreement_witness :
    (exDb.consume_pending_link "code1" 1600).1 =
      .ok ⟨"code1", 5, "SMP", 1000⟩ ∧
    (⟨"code1", 5, "SMP", 1000⟩ : PendingLink) ∈
      (exDb.cleanup_expired_links 1600).2.pending_links := by
  constructor
  · exact ((ttl_boundary_agreement exDb ⟨"code1", 5, "SMP", 1000⟩ 0).1
      (by decide)).2
  · exact ((ttl_boundary_agreement exDb ⟨"code1", 5, "SMP", 1000⟩ 0).2
      (by decide)).2

theorem create_pending_link_conflict_spec_witness :
    exDb.create_pending_link "whatever" 5 "SMP-live" 2000 =
      (.error .ServerNameConflict, exDb) ∧
    emptyDb.create_pending_link "c9" 9 "Nine" 42 =
      (.ok ⟨"c9", 9, "Nine", 42⟩,
       { emptyDb with pending_links := [⟨"c9", 9, "Nine", 42⟩] }) := by
  constructor
  · exact (create_pending_link_conflict_spec exDb "whatever" 5 "SMP-live"
      2000).1 (by decide)
  · exact (create_pending_link_conflict_spec emptyDb "c9" 9 "Nine" 42).2
      (by decide) (by decide)

theorem delete_server_cascade_witness :
    (exDb.delete_server_by_api_key "hashA").1 = .ok () ∧
    (exDb.delete_server_by_api_key "hashA").2.server_exists "hashA" = false ∧
    cacheGet (exDb.delete_server_by_api_key "hashA").2.cache "hashA" = none ∧
    (exDb.delete_server_by_api_key "hashA").2.get_status_image "hashA" =
      none ∧
    (exDb.delete_server_by_api_key "hashA").2.get_server_by_api_key "hashA" =
      none :=
  delete_server_cascade exDb "hashA" (by decide)

theorem sync_players_replaces_roster_witness :
    (exDb.sync_players "hashA" ["Notch", "Jeb"] 200).1 = .ok () ∧
    (exDb.sync_players "hashA" ["Notch", "Jeb"] 200).2.roster "hashA" =
      [("Notch", 200), ("Jeb", 200)] ∧
    (exDb.sync_players "hashA" ["Notch", "Jeb"] 200).2.is_server_synced
      "hashA" = true :=
  sync_players_replaces_roster exDb "hashA" ["Notch", "Jeb"] 200 (by decide)

theorem join_leave_roundtrip_witness :
    ((exDb.player_join "hashA" "Alex" 50).2.player_leave "hashA"
      "Alex").2.roster "hashA" = exDb.roster "hashA" ∧
    (exDb.player_leave "hashA" "Ghost").2.roster "hashA" =
      exDb.roster "hashA" := by
  constructor
  · exact ((join_leave_roundtrip exDb "hashA" "Alex" "Ghost" 50
      (by decide)).1 (by decide)).2.2
  · exact ((join_leave_roundtrip exDb "hashA" "Alex" "Ghost" 50
      (by decide)).2 (by decide)).2

theorem absent_cache_entry_degrades_witness :
    exDbNoCache.is_server_synced "hashA" = false ∧
    exDbNoCache.get_online_players "hashA" = [] ∧
    exDbNoCache.get_server_with_players 5 "SMP-live" =
      .ok ⟨"SMP-live", []⟩ ∧
    ServerWithPlayers.mk "SMP-live" [] ∈
      exDbNoCache.get_servers_with_players 5 := by
  have hmain := absent_cache_entry_degrades exDbNoCache "hashA" (by decide)
  refine ⟨hmain.1, hmain.2.1, ?_, ?_⟩
  · exact hmain.2.2.2.1 5 "SMP-live" ⟨"hashA", "SMP-live", 5⟩ (by decide)
      (by decide)
  · exact hmain.2.2.2.2 5 ⟨"hashA", "SMP-live", 5⟩ (by decide) (by decide)
      (by decide)

theorem presence_mutation_key_check_witness :
    emptyDb.player_join "ghost" "p" 0 = (.error .InvalidApiKey, emptyDb) ∧
    (cacheGet (exDbNoCache.player_join "hashA" "Steve" 10).2.cache
      "hashA").isSome = true ∧
    (exDbNoCache.player_leave "hashA" "Steve").2 = exDbNoCache := by
  refine ⟨?_, ?_, ?_⟩
  · exact ((presence_mutation_key_check emptyDb "ghost" "p" [] 0 0).1
      (by decide)).1
  · exact ((presence_mutation_key_check exDbNoCache "hashA" "Steve" [] 10
      0).2 (by decide)).2.1
  · exact ((presence_mutation_key_check exDbNoCache "hashA" "Steve" [] 10
      0).2 (by decide)).2.2.2.2.2 (by decide)

theorem roster_names_nodup_preserved_witness :
    (namesOf ((ServerState.mk [("Steve", 3)] true).add_player "Alex"
      9).players).Nodup ∧
    (namesOf ((ServerState.mk [("Steve", 3)] true).remove_player
      "Steve").players).Nodup := by
  constructor
  · exact (roster_names_nodup_preserved ⟨[("Steve", 3)], true⟩ "Alex" 9 []
      (by decide)).1
  · exact (roster_names_nodup_preserved ⟨[("Steve", 3)], true⟩ "Steve" 9 []
      (by decide)).2.1

theorem synced_since_boot_monotonic_witness :
    (ServerState.mk [("Steve", 3), ("Alex", 50)] true).synced_since_boot =
      true :=
  synced_since_boot_monotonic.2.2.2.2 exDb (.playerJoin "hashA" "Alex" 50)
    "hashA" ⟨[("Steve", 3)], true⟩ ⟨[("Steve", 3), ("Alex", 50)], true⟩
    (by decide) (by decide) (by decide)

end Oxeye
